import Mathlib

/-!
Shallow embedding of the analytical pipeline of the Hackathon inventory-analysis
repository: demand-shift detection, non-moving classification, ABC-XYZ
segmentation, risk scoring and alert prioritisation, together with the proofs
of the specification claims about them.

The repository ships the README (with the default configuration values), a cron
driver script and the Next.js dashboard; the Python analytical modules
(src/ml/demand_shift.py, src/ml/non_moving.py, src/ml/segmentation.py,
src/ml/scoring.py, src/output/alerts.py) are not part of the source snapshot,
so those components are modelled from the specification text, while the
dashboard logic (segment matrix, confidence rendering) is embedded from the
TypeScript sources directly.
-/

namespace Hackathon

/-- Severity-ordered movement categories of the Non-Moving Classifier. -/
inductive MovementCategory where
  | ACTIVE
  | SLOW_MOVING
  | NON_MOVING
  | DEAD_STOCK
deriving DecidableEq, Repr

/-- Numeric severity rank of a movement category (ascending severity). -/
def severity : MovementCategory → Nat
  | .ACTIVE => 0
  | .SLOW_MOVING => 1
  | .NON_MOVING => 2
  | .DEAD_STOCK => 3

/-- Day thresholds of the Non-Moving Classifier. -/
structure NonMovingConfig where
  slowMovingDays : Nat
  nonMovingDays : Nat
  deadStockDays : Nat
deriving Repr

/-- Default thresholds from src/config.py as documented in the README:
SLOW_MOVING_DAYS = 60, NON_MOVING_DAYS = 90, DEAD_STOCK_DAYS = 180. -/
def defaultNonMovingConfig : NonMovingConfig := ⟨60, 90, 180⟩

/-- Modelled from the spec: the category assignment of the Non-Moving
Classifier (src/ml/non_moving.py, absent from the snapshot): thresholds are
inclusive on the lower bound, so days below the slow-moving threshold are
ACTIVE, then SLOW_MOVING up to the non-moving threshold, then NON_MOVING up to
the dead-stock threshold, and DEAD_STOCK from the dead-stock threshold on. -/
def categorize (cfg : NonMovingConfig) (days : Nat) : MovementCategory :=
  if days < cfg.slowMovingDays then .ACTIVE
  else if days < cfg.nonMovingDays then .SLOW_MOVING
  else if days < cfg.deadStockDays then .NON_MOVING
  else .DEAD_STOCK

/-- Alert priorities, P1 most severe. -/
inductive Priority where
  | P1_CRITICAL
  | P2_HIGH
  | P3_MEDIUM
  | P4_LOW
  | P5_INFO
deriving DecidableEq, Repr

/-- Modelled from the spec: the Alert Generator's priority assignment
(src/output/alerts.py, absent from the snapshot), with the default score
thresholds 80/60/40/20 documented in the README's risk levels. -/
def alertPriority (score : ℚ) : Priority :=
  if 80 ≤ score then .P1_CRITICAL
  else if 60 ≤ score then .P2_HIGH
  else if 40 ≤ score then .P3_MEDIUM
  else if 20 ≤ score then .P4_LOW
  else .P5_INFO

/-- Mean of a rational series (0 for the empty series). -/
def mean (xs : List ℚ) : ℚ :=
  if xs.length = 0 then 0 else xs.sum / xs.length

/-- Population variance of a rational series (0 for the empty series). -/
def variance (xs : List ℚ) : ℚ :=
  if xs.length = 0 then 0
  else ((xs.map fun x => (x - mean xs) ^ 2).sum) / xs.length

/-- XYZ classes of the Segmentation Engine. -/
inductive XYZClass where
  | X
  | Y
  | Z
deriving DecidableEq, Repr

/-- CV thresholds of the Segmentation Engine (defaults from src/config.py as
documented in the README: XYZ_X_CV = 0.5, XYZ_Y_CV = 1.0). -/
structure XYZConfig where
  xCv : ℚ
  yCv : ℚ
deriving Repr

/-- Default XYZ thresholds. -/
def defaultXYZConfig : XYZConfig := ⟨1/2, 1⟩

/-- Modelled from the spec: the XYZ assignment of the Segmentation Engine
(src/ml/segmentation.py, absent from the snapshot).  A zero (or undefined)
mean is classified Z outright, so the undefined coefficient of variation is
never formed; otherwise cv = std/mean is compared with the thresholds, which
over the squares avoids forming the square root: cv < t is variance <
t^2 * mean^2 for a positive mean. -/
def xyzClassify (cfg : XYZConfig) (m v : ℚ) : XYZClass :=
  if m ≤ 0 then .Z
  else if v < cfg.xCv ^ 2 * m ^ 2 then .X
  else if v < cfg.yCv ^ 2 * m ^ 2 then .Y
  else .Z

/-- XYZ class of a demand series: classify its mean and variance. -/
def xyzOfSeries (cfg : XYZConfig) (xs : List ℚ) : XYZClass :=
  xyzClassify cfg (mean xs) (variance xs)

/-- One series' aggregate input to the Segmentation Engine: its key (the
item–location pair rendered as one string) and its total sales volume. -/
structure SeriesVol where
  key : String
  vol : ℚ
deriving DecidableEq, Repr

/-- Sort order of the ABC ranking: descending total volume, ties broken by
ascending lexical key order for determinism. -/
def seriesLE (s t : SeriesVol) : Bool :=
  decide (t.vol < s.vol ∨ (s.vol = t.vol ∧ s.key ≤ t.key))

/-- ABC classes of the Segmentation Engine. -/
inductive ABCClass where
  | A
  | B
  | C
deriving DecidableEq, Repr

/-- Cumulative-volume-share cut points of the ABC assignment. -/
structure ABCConfig where
  aCut : ℚ
  bCut : ℚ
deriving Repr

/-- Class of one cumulative volume share against the configured cut points. -/
def abcClassOfShare (cfg : ABCConfig) (share : ℚ) : ABCClass :=
  if share ≤ cfg.aCut then .A else if share ≤ cfg.bCut then .B else .C

/-- Walk the volume-ranked series accumulating cumulative volume and emit each
series' class from its cumulative share (class C when the grand total is zero,
so the share's division by zero is never formed). -/
def abcAssignGo (cfg : ABCConfig) (total : ℚ) :
    List SeriesVol → ℚ → List (String × ABCClass)
  | [], _ => []
  | s :: rest, acc =>
    let acc2 := acc + s.vol
    (s.key, if total = 0 then ABCClass.C else abcClassOfShare cfg (acc2 / total)) ::
      abcAssignGo cfg total rest acc2

/-- Modelled from the spec: the ABC assignment of the Segmentation Engine
(src/ml/segmentation.py, absent from the snapshot): rank all series by
descending total volume with ties broken by lexical key order, then classify
each by its cumulative volume share against the configured cut points. -/
def abcAssign (cfg : ABCConfig) (series : List SeriesVol) : List (String × ABCClass) :=
  abcAssignGo cfg ((series.map SeriesVol.vol).sum) (series.mergeSort seriesLE) 0

/-- Letter of an ABC class. -/
def ABCClass.str : ABCClass → String
  | .A => "A"
  | .B => "B"
  | .C => "C"

/-- Letter of an XYZ class. -/
def XYZClass.str : XYZClass → String
  | .X => "X"
  | .Y => "Y"
  | .Z => "Z"

/-- Modelled from the spec: segment = concatenation of abc_class and
xyz_class. -/
def mkSegment (a : ABCClass) (x : XYZClass) : String :=
  a.str ++ x.str

/-- The nine segment keys of the dashboard's segmentColors record
(SegmentMatrix component), in declaration order. -/
def segmentColorsKeys : List String :=
  ["AX", "AY", "AZ", "BX", "BY", "BZ", "CX", "CY", "CZ"]

/-- Row labels of the dashboard's 3×3 segment matrix. -/
def abcRows : List String := ["A", "B", "C"]

/-- Column labels of the dashboard's 3×3 segment matrix. -/
def xyzCols : List String := ["X", "Y", "Z"]

/-- The cells the SegmentMatrix component renders: every row–column
concatenation, row-major, so every segment is representable even when its
count is zero. -/
def matrixSegments : List String :=
  abcRows.flatMap fun r => xyzCols.map fun c => r ++ c

/-- Every segment string the engine can emit, over all class pairs. -/
def allSegments : List String :=
  [ABCClass.A, .B, .C].flatMap fun a => [XYZClass.X, .Y, .Z].map fun x => mkSegment a x

/-- Claim C1: with the default thresholds the Non-Moving Classifier's category
is a deterministic function of days_since_last_movement mapping days < 60 to
ACTIVE, 60 ≤ days < 90 to SLOW_MOVING, 90 ≤ days < 180 to NON_MOVING and
days ≥ 180 to DEAD_STOCK, every boundary inclusive on the lower bound. -/
theorem categorize_default_thresholds (days : Nat) :
    (categorize defaultNonMovingConfig days = .ACTIVE ↔ days < 60) ∧
    (categorize defaultNonMovingConfig days = .SLOW_MOVING ↔ 60 ≤ days ∧ days < 90) ∧
    (categorize defaultNonMovingConfig days = .NON_MOVING ↔ 90 ≤ days ∧ days < 180) ∧
    (categorize defaultNonMovingConfig days = .DEAD_STOCK ↔ 180 ≤ days) := by
  unfold categorize defaultNonMovingConfig
  split_ifs with h1 h2 h3 <;>
    refine ⟨?_, ?_, ?_, ?_⟩ <;> simp_all <;> omega

/-- Claim C2: under any single threshold configuration, the movement category
is monotone in days_since_last_movement with respect to the severity order
ACTIVE < SLOW_MOVING < NON_MOVING < DEAD_STOCK. -/
theorem categorize_monotone (cfg : NonMovingConfig) (d1 d2 : Nat)
    (h : d1 ≤ d2) :
    severity (categorize cfg d1) ≤ severity (categorize cfg d2) := by
  unfold categorize
  split_ifs <;> simp [severity] <;> omega

/-- Witness for C2 at the spec's instance: a series at 89 days is not
classified more severely than one at 91 days under the default thresholds. -/
theorem categorize_monotone_witness :
    89 ≤ 91 ∧
    severity (categorize defaultNonMovingConfig 89) ≤
      severity (categorize defaultNonMovingConfig 91) :=
  ⟨by decide, categorize_monotone defaultNonMovingConfig 89 91 (by decide)⟩

/-- Claim C8: the Alert Generator's priority is a deterministic function of the
risk score with the default thresholds: score ≥ 80 gives P1_CRITICAL,
80 > score ≥ 60 gives P2_HIGH, 60 > score ≥ 40 gives P3_MEDIUM,
40 > score ≥ 20 gives P4_LOW, and score < 20 gives P5_INFO. -/
theorem alertPriority_default_thresholds (score : ℚ) :
    (alertPriority score = .P1_CRITICAL ↔ 80 ≤ score) ∧
    (alertPriority score = .P2_HIGH ↔ 60 ≤ score ∧ score < 80) ∧
    (alertPriority score = .P3_MEDIUM ↔ 40 ≤ score ∧ score < 60) ∧
    (alertPriority score = .P4_LOW ↔ 20 ≤ score ∧ score < 40) ∧
    (alertPriority score = .P5_INFO ↔ score < 20) := by
  unfold alertPriority
  split_ifs with h1 h2 h3 h4 <;>
    refine ⟨?_, ?_, ?_, ?_, ?_⟩ <;> simp_all <;>
    first
      | linarith
      | (intro hc; linarith)

/-- Claim C10: a series whose mean demand is zero (in particular a series with
no sales) is classified Z by the Segmentation Engine, without forming the
undefined coefficient of variation. -/
theorem zero_mean_is_Z (cfg : XYZConfig) (xs : List ℚ)
    (h : mean xs = 0) : xyzOfSeries cfg xs = .Z := by
  unfold xyzOfSeries xyzClassify
  rw [h]
  simp

/-- Witness for C10: the all-zero three-week series has zero mean and is
classified Z under the default thresholds. -/
theorem zero_mean_is_Z_witness :
    mean [0, 0, 0] = 0 ∧ xyzOfSeries defaultXYZConfig [0, 0, 0] = .Z :=
  ⟨by norm_num [mean], zero_mean_is_Z defaultXYZConfig [0, 0, 0] (by norm_num [mean])⟩

theorem abcAssignGo_map_fst (cfg : ABCConfig) (total : ℚ) :
    ∀ (l : List SeriesVol) (acc : ℚ),
      (abcAssignGo cfg total l acc).map Prod.fst = l.map SeriesVol.key := by
  intro l
  induction l with
  | nil => intro acc; rfl
  | cons s rest ih => intro acc; simp [abcAssignGo, ih]

theorem fst_nodup_unique {α β : Type} (l : List (α × β))
    (h : (l.map Prod.fst).Nodup) {k : α} {c₁ c₂ : β}
    (h₁ : (k, c₁) ∈ l) (h₂ : (k, c₂) ∈ l) : c₁ = c₂ := by
  induction l with
  | nil => cases h₁
  | cons p rest ih =>
    simp only [List.map_cons, List.nodup_cons] at h
    obtain ⟨a, b⟩ := p
    rcases List.mem_cons.mp h₁ with e₁ | m₁ <;>
      rcases List.mem_cons.mp h₂ with e₂ | m₂
    · have hc₁ : c₁ = b := congrArg Prod.snd e₁
      have hc₂ : c₂ = b := congrArg Prod.snd e₂
      rw [hc₁, hc₂]
    · exfalso
      apply h.1
      have hk : k = a := congrArg Prod.fst e₁
      rw [← hk]
      exact List.mem_map.mpr ⟨(k, c₂), m₂, rfl⟩
    · exfalso
      apply h.1
      have hk : k = a := congrArg Prod.fst e₂
      rw [← hk]
      exact List.mem_map.mpr ⟨(k, c₁), m₁, rfl⟩
    · exact ih h.2 m₁ m₂

/-- Claim C5: the ABC assignment is a partition of the input series set: the
assigned keys are a permutation of the input keys (no omissions, no
duplicates), and — given distinct input keys — each key is assigned exactly
one ABC class; ranking ties are broken by lexical key order inside the sort,
so the whole assignment is a deterministic function of the input. -/
theorem abcAssign_partition (cfg : ABCConfig) (series : List SeriesVol)
    (hnd : (series.map SeriesVol.key).Nodup) :
    ((abcAssign cfg series).map Prod.fst).Perm (series.map SeriesVol.key) ∧
    ∀ k c₁ c₂, (k, c₁) ∈ abcAssign cfg series →
      (k, c₂) ∈ abcAssign cfg series → c₁ = c₂ := by
  have hfst : (abcAssign cfg series).map Prod.fst =
      (series.mergeSort seriesLE).map SeriesVol.key := by
    unfold abcAssign
    exact abcAssignGo_map_fst cfg _ _ 0
  have hperm : ((abcAssign cfg series).map Prod.fst).Perm
      (series.map SeriesVol.key) := by
    rw [hfst]
    exact (List.mergeSort_perm series seriesLE).map SeriesVol.key
  refine ⟨hperm, fun k c₁ c₂ h₁ h₂ => ?_⟩
  exact fst_nodup_unique _ (hperm.symm.nodup hnd) h₁ h₂

/-- Witness for C5: the two-series input with distinct keys has distinct keys,
and its ABC assignment is a key permutation with one class per key. -/
theorem abcAssign_partition_witness :
    (([⟨"i1-w1", 5⟩, ⟨"i2-w1", 3⟩] : List SeriesVol).map SeriesVol.key).Nodup ∧
    (((abcAssign ⟨4/5, 19/20⟩ [⟨"i1-w1", 5⟩, ⟨"i2-w1", 3⟩]).map Prod.fst).Perm
        (([⟨"i1-w1", 5⟩, ⟨"i2-w1", 3⟩] : List SeriesVol).map SeriesVol.key) ∧
      ∀ k c₁ c₂, (k, c₁) ∈ abcAssign ⟨4/5, 19/20⟩ [⟨"i1-w1", 5⟩, ⟨"i2-w1", 3⟩] →
        (k, c₂) ∈ abcAssign ⟨4/5, 19/20⟩ [⟨"i1-w1", 5⟩, ⟨"i2-w1", 3⟩] → c₁ = c₂) :=
  ⟨by decide, abcAssign_partition ⟨4/5, 19/20⟩ _ (by decide)⟩

/-- Claim C6: every segment string is the concatenation of an ABC and an XYZ
letter and lies among the nine valid combinations; the nine possible segments
are exactly the dashboard's segmentColors keys, and the dashboard's 3×3 matrix
renders exactly those nine cells, so every segment is representable even when
empty. -/
theorem segment_strings_valid :
    (∀ a x, mkSegment a x ∈ segmentColorsKeys) ∧
    allSegments = segmentColorsKeys ∧
    matrixSegments = segmentColorsKeys := by
  refine ⟨fun a x => ?_, by decide, by decide⟩
  cases a <;> cases x <;> decide

/-- Clamp a rational to the unit interval; factor normalisation of the Risk
Scoring Engine. -/
def clamp01 (x : ℚ) : ℚ := max 0 (min 1 x)

/-- The factors present for a series, as (weight, normalised value) pairs:
missing factors are excluded from the weighted sum. -/
def presentFactors (ws : List (ℚ × Option ℚ)) : List (ℚ × ℚ) :=
  ws.filterMap fun p => p.2.map fun f => (p.1, clamp01 f)

/-- Total configured weight of the present factors. -/
def presentWeightSum (ws : List (ℚ × Option ℚ)) : ℚ :=
  ((presentFactors ws).map Prod.fst).sum

/-- Modelled from the spec: the composite score of the Risk Scoring Engine
(src/ml/scoring.py, absent from the snapshot): each present factor is
normalised to [0,1], missing factors are excluded with the weights
renormalised over the present ones, and the weighted sum is scaled by 100;
with no present weight the score is 0 rather than a division by zero. -/
def computeScore (ws : List (ℚ × Option ℚ)) : ℚ :=
  let pr := presentFactors ws
  let wsum := (pr.map Prod.fst).sum
  if wsum = 0 then 0 else 100 * ((pr.map fun p => p.1 * p.2).sum / wsum)

theorem clamp01_nonneg (x : ℚ) : 0 ≤ clamp01 x := le_max_left 0 _

theorem clamp01_le_one (x : ℚ) : clamp01 x ≤ 1 :=
  max_le (by norm_num) (min_le_left 1 x)

theorem presentFactors_mem (ws : List (ℚ × Option ℚ))
    (hw : ∀ p ∈ ws, 0 ≤ p.1) :
    ∀ p ∈ presentFactors ws, 0 ≤ p.1 ∧ 0 ≤ p.2 ∧ p.2 ≤ 1 := by
  intro p hp
  rw [presentFactors, List.mem_filterMap] at hp
  obtain ⟨a, ha, hfa⟩ := hp
  cases h2 : a.2 with
  | none => rw [h2] at hfa; simp at hfa
  | some f0 =>
    rw [h2] at hfa
    simp only [Option.map_some', Option.some.injEq] at hfa
    obtain rfl := hfa
    exact ⟨hw a ha, clamp01_nonneg f0, clamp01_le_one f0⟩

theorem wf_sum_bounds (l : List (ℚ × ℚ))
    (h : ∀ p ∈ l, 0 ≤ p.1 ∧ 0 ≤ p.2 ∧ p.2 ≤ 1) :
    0 ≤ (l.map fun p => p.1 * p.2).sum ∧
    (l.map fun p => p.1 * p.2).sum ≤ (l.map Prod.fst).sum := by
  induction l with
  | nil => simp
  | cons p t ih =>
    obtain ⟨hw, hf0, hf1⟩ := h p (List.mem_cons_self p t)
    obtain ⟨ih0, ih1⟩ := ih fun q hq => h q (List.mem_cons_of_mem p hq)
    constructor
    · simpa using add_nonneg (mul_nonneg hw hf0) ih0
    · simp only [List.map_cons, List.sum_cons]
      exact add_le_add (mul_le_of_le_one_right hw hf1) ih1

theorem sum_map_div (l : List ℚ) (c : ℚ) :
    (l.map fun x => x / c).sum = l.sum / c := by
  induction l with
  | nil => simp
  | cons x t ih => simp [ih, add_div]

theorem sum_map_wdiv (l : List (ℚ × ℚ)) (c : ℚ) :
    (l.map fun p => p.1 / c * p.2).sum = (l.map fun p => p.1 * p.2).sum / c := by
  induction l with
  | nil => simp
  | cons p t ih =>
    simp only [List.map_cons, List.sum_cons]
    rw [ih, div_mul_eq_mul_div, add_div]

/-- Claim C7: for nonnegative factor weights the composite risk score always
lies in [0,100] — including when every factor is missing — and whenever any
factor is present the renormalised weights sum to 1 and the score is exactly
100 times the weighted sum of the normalised factor values. -/
theorem computeScore_bounds (ws : List (ℚ × Option ℚ))
    (hw : ∀ p ∈ ws, 0 ≤ p.1) :
    0 ≤ computeScore ws ∧ computeScore ws ≤ 100 ∧
    (presentWeightSum ws ≠ 0 →
      ((presentFactors ws).map fun p => p.1 / presentWeightSum ws).sum = 1 ∧
      computeScore ws =
        100 * ((presentFactors ws).map
          fun p => p.1 / presentWeightSum ws * p.2).sum) := by
  have hb := presentFactors_mem ws hw
  obtain ⟨hs0, hsle⟩ := wf_sum_bounds (presentFactors ws) hb
  have hwnn : 0 ≤ presentWeightSum ws := by
    refine List.sum_nonneg ?_
    intro x hx
    rw [List.mem_map] at hx
    obtain ⟨p, hp, rfl⟩ := hx
    exact (hb p hp).1
  by_cases hz : presentWeightSum ws = 0
  · have hsc : computeScore ws = 0 := by
      rw [computeScore]
      simp only [presentWeightSum] at hz
      simp [hz]
    refine ⟨by rw [hsc], by rw [hsc]; norm_num, fun hc => absurd hz hc⟩
  · have hwpos : 0 < presentWeightSum ws := lt_of_le_of_ne hwnn (Ne.symm hz)
    have hsc : computeScore ws =
        100 * ((presentFactors ws).map fun p => p.1 * p.2).sum / presentWeightSum ws := by
      rw [computeScore]
      simp only [presentWeightSum] at hz ⊢
      simp [hz, mul_div_assoc]
    refine ⟨?_, ?_, fun _ => ⟨?_, ?_⟩⟩
    · rw [hsc]
      positivity
    · rw [hsc, mul_div_assoc]
      have hdiv : ((presentFactors ws).map fun p => p.1 * p.2).sum /
          presentWeightSum ws ≤ 1 := (div_le_one hwpos).mpr hsle
      linarith
    · have hmm : ((presentFactors ws).map fun p => p.1 / presentWeightSum ws).sum
          = (((presentFactors ws).map Prod.fst).map
              fun x => x / presentWeightSum ws).sum := by
        rw [List.map_map]
        rfl
      rw [hmm, sum_map_div]
      exact div_self hz
    · rw [hsc, sum_map_wdiv, mul_div_assoc]

/-- Witness for C7: two configured factors of weight 3 and 1, the second
missing — the weights are nonnegative, the score is in [0,100], and with
present weight 3 ≠ 0 the renormalised weight sums and score formula hold. -/
theorem computeScore_bounds_witness :
    (∀ p ∈ [((3 : ℚ), some (1/2 : ℚ)), (1, none)], 0 ≤ p.1) ∧
    (0 ≤ computeScore [(3, some (1/2)), (1, none)] ∧
     computeScore [(3, some (1/2)), (1, none)] ≤ 100 ∧
     (presentWeightSum [(3, some (1/2)), (1, none)] ≠ 0 →
       ((presentFactors [(3, some (1/2)), (1, none)]).map
          fun p => p.1 / presentWeightSum [(3, some (1/2)), (1, none)]).sum = 1 ∧
       computeScore [(3, some (1/2)), (1, none)] =
         100 * ((presentFactors [(3, some (1/2)), (1, none)]).map
           fun p => p.1 / presentWeightSum [(3, some (1/2)), (1, none)] * p.2).sum)) :=
  have hw : ∀ p ∈ [((3 : ℚ), some (1/2 : ℚ)), (1, none)], 0 ≤ p.1 := by
    intro p hp
    rcases List.mem_cons.mp hp with rfl | hp2
    · norm_num
    · rcases List.mem_cons.mp hp2 with rfl | h
      · norm_num
      · cases h
  ⟨hw, computeScore_bounds [(3, some (1/2)), (1, none)] hw⟩

/-- Shift directions of the Demand Shift Detector. -/
inductive Direction where
  | INCREASE
  | DECREASE
  | STABLE
deriving DecidableEq, BEq, Repr

/-- One detection method's verdict: whether it fired, the direction it saw,
and its raw magnitude. -/
structure MethodSignal where
  fired : Bool
  direction : Direction
  magnitude : ℚ
deriving Repr

/-- The no-signal verdict (degenerate statistics fall back to this). -/
def noSignal : MethodSignal := ⟨false, .STABLE, 0⟩

/-- Modelled from the spec: the CUSUM signal of the Demand Shift Detector
(src/ml/demand_shift.py, absent from the snapshot).  Zero variance degenerates
to no signal; otherwise the running cumulative sums of deviations from the
baseline mean are scanned for the first point whose standardised value exceeds
the threshold in either direction — |S/std| > h is S^2 > h^2·variance, which
avoids forming the square root — and the direction follows the sign of the
statistic at the triggering point. -/
def cusumSignal (h : ℚ) (xs : List ℚ) : MethodSignal :=
  let v := variance xs
  if v = 0 then noSignal
  else
    let μ := mean xs
    let sums := (xs.map fun x => x - μ).scanl (· + ·) 0
    match sums.find? fun s => decide (h ^ 2 * v < s ^ 2) with
    | none => noSignal
    | some s => ⟨true, if 0 < s then .INCREASE else .DECREASE, s⟩

/-- The trailing window of n points of a series. -/
def lastN (n : Nat) (xs : List ℚ) : List ℚ := xs.drop (xs.length - n)

/-- Modelled from the spec: the moving-average crossover signal of the Demand
Shift Detector (src/ml/demand_shift.py, absent from the snapshot).  Series
shorter than the long window yield no signal; a zero long-window mean makes the
relative comparison undefined and degenerates to no signal; otherwise the
short-window mean must differ from the long-window mean by more than the
relative tolerance, with the direction of the difference. -/
def maSignal (short long : Nat) (tol : ℚ) (xs : List ℚ) : MethodSignal :=
  if xs.length < long then noSignal
  else
    let sm := mean (lastN short xs)
    let lm := mean (lastN long xs)
    if lm = 0 then noSignal
    else if tol * |lm| < |sm - lm| then
      ⟨true, if lm < sm then .INCREASE else .DECREASE, (sm - lm) / lm⟩
    else noSignal

/-- Modelled from the spec: the Z-score anomaly signal of the Demand Shift
Detector (src/ml/demand_shift.py, absent from the snapshot).  The latest point
is standardised against the trailing mean and variance of the preceding
points; zero trailing variance degenerates to no signal; |z| > t is
(x − μ)^2 > t^2·variance, the direction from the sign of the deviation. -/
def zSignal (zthr : ℚ) (xs : List ℚ) : MethodSignal :=
  match xs.getLast? with
  | none => noSignal
  | some x =>
    let base := xs.dropLast
    let v := variance base
    if v = 0 then noSignal
    else
      let μ := mean base
      if zthr ^ 2 * v < (x - μ) ^ 2 then
        ⟨true, if μ < x then .INCREASE else .DECREASE, x - μ⟩
      else noSignal

/-- Configuration of the Demand Shift Detector. -/
structure DemandShiftConfig where
  cusumThreshold : ℚ
  maShort : Nat
  maLong : Nat
  maTolerance : ℚ
  zThreshold : ℚ
deriving Repr

/-- Defaults from src/config.py as documented in the README: CUSUM_THRESHOLD =
2.0, MA_SHORT_WINDOW = 4, MA_LONG_WINDOW = 12; the relative MA tolerance and
the Z threshold are configurable parameters whose defaults the README does not
list, modelled as 0.1 and 2. -/
def defaultShiftConfig : DemandShiftConfig := ⟨2, 4, 12, 1/10, 2⟩

/-- The per-series verdict record of the Demand Shift Detector. -/
structure DemandShiftResult where
  shift_detected : Bool
  direction : Direction
  confidence : ℚ
  magnitude : ℚ
deriving Repr

/-- The firing method with the largest absolute magnitude (first wins ties). -/
def strongestOf (s : MethodSignal) (rest : List MethodSignal) : MethodSignal :=
  rest.foldl (fun a b => if |a.magnitude| < |b.magnitude| then b else a) s

/-- Modelled from the spec: overall shift magnitude — relative change between
a trailing baseline window and the most recent window of equal length, zero
when the baseline mean is zero. -/
def relChange (w : Nat) (xs : List ℚ) : ℚ :=
  let recent := lastN w xs
  let base := lastN w (xs.take (xs.length - w))
  if mean base = 0 then 0 else (mean recent - mean base) / mean base

/-- Modelled from the spec: combination of the per-method verdicts
(src/ml/demand_shift.py, absent from the snapshot).  No firing method means no
shift and a STABLE direction; otherwise the direction is the majority vote of
the firing methods, ties broken toward the firing method of largest magnitude,
and confidence = (fraction of methods agreeing with the verdict) × (the
strongest method's magnitude clamped to [0,1]). -/
def combineAux (total : Nat) : List MethodSignal → ℚ → DemandShiftResult
  | [], mag => ⟨false, .STABLE, 0, mag⟩
  | f :: fs, mag =>
    let inc := ((f :: fs).filter fun s => s.direction == Direction.INCREASE).length
    let dec := ((f :: fs).filter fun s => s.direction == Direction.DECREASE).length
    let strongest := strongestOf f fs
    let dir := if dec < inc then Direction.INCREASE
      else if inc < dec then Direction.DECREASE
      else strongest.direction
    let agree := ((f :: fs).filter fun s => s.direction == dir).length
    ⟨true, dir, ((agree : ℚ) / (total : ℚ)) * clamp01 |strongest.magnitude|, mag⟩

/-- Combine the method signals: only the firing methods vote. -/
def combineSignals (total : Nat) (signals : List MethodSignal) (mag : ℚ) :
    DemandShiftResult :=
  combineAux total (signals.filter fun s => s.fired) mag

/-- The full per-series Demand Shift Detector: three method signals combined
into one verdict. -/
def detectShift (cfg : DemandShiftConfig) (xs : List ℚ) : DemandShiftResult :=
  let signals := [cusumSignal cfg.cusumThreshold xs,
    maSignal cfg.maShort cfg.maLong cfg.maTolerance xs,
    zSignal cfg.zThreshold xs]
  combineSignals signals.length signals (relChange cfg.maShort xs)

/-- Embedded from src/frontend/src/app/sku/[id]/page.tsx: the SKU detail page
renders confidence as (confidence_score * 100) percent. -/
def skuPageConfidencePercent (c : ℚ) : ℚ := c * 100

/-- Embedded from src/frontend/src/app/demand-shifts/page.tsx: the
demand-shifts list renders confidence_score directly as a percent, both as the
progress-bar width and as the toFixed(0) label. -/
def shiftsPageConfidencePercent (c : ℚ) : ℚ := c

theorem cusumSignal_shape (h : ℚ) (xs : List ℚ) :
    cusumSignal h xs = noSignal ∨
    ∃ d s, (d = Direction.INCREASE ∨ d = Direction.DECREASE) ∧
      cusumSignal h xs = ⟨true, d, s⟩ := by
  simp only [cusumSignal]
  split
  · exact Or.inl rfl
  · split
    · exact Or.inl rfl
    · rename_i s heq
      right
      by_cases h0 : 0 < s
      · exact ⟨Direction.INCREASE, s, Or.inl rfl, by rw [if_pos h0]⟩
      · exact ⟨Direction.DECREASE, s, Or.inr rfl, by rw [if_neg h0]⟩

theorem maSignal_shape (short long : Nat) (tol : ℚ) (xs : List ℚ) :
    maSignal short long tol xs = noSignal ∨
    ∃ d m, (d = Direction.INCREASE ∨ d = Direction.DECREASE) ∧
      maSignal short long tol xs = ⟨true, d, m⟩ := by
  simp only [maSignal]
  split
  · exact Or.inl rfl
  · split
    · exact Or.inl rfl
    · split
      · right
        by_cases h0 : mean (lastN long xs) < mean (lastN short xs)
        · exact ⟨Direction.INCREASE, _, Or.inl rfl, by rw [if_pos h0]⟩
        · exact ⟨Direction.DECREASE, _, Or.inr rfl, by rw [if_neg h0]⟩
      · exact Or.inl rfl

theorem zSignal_shape (zthr : ℚ) (xs : List ℚ) :
    zSignal zthr xs = noSignal ∨
    ∃ d m, (d = Direction.INCREASE ∨ d = Direction.DECREASE) ∧
      zSignal zthr xs = ⟨true, d, m⟩ := by
  simp only [zSignal]
  split
  · exact Or.inl rfl
  · rename_i x heq
    split
    · exact Or.inl rfl
    · split
      · right
        by_cases h0 : mean xs.dropLast < x
        · exact ⟨Direction.INCREASE, _, Or.inl rfl, by rw [if_pos h0]⟩
        · exact ⟨Direction.DECREASE, _, Or.inr rfl, by rw [if_neg h0]⟩
      · exact Or.inl rfl

theorem shape_fired_dir {sig : MethodSignal}
    (hc : sig = noSignal ∨
      ∃ d m, (d = Direction.INCREASE ∨ d = Direction.DECREASE) ∧
        sig = ⟨true, d, m⟩)
    (hf : sig.fired = true) : sig.direction ≠ .STABLE := by
  rcases hc with hc | ⟨d, m, hd, hc⟩
  · rw [hc] at hf; simp [noSignal] at hf
  · rw [hc]
    rcases hd with rfl | rfl <;> simp

theorem strongestOf_mem (s : MethodSignal) (rest : List MethodSignal) :
    strongestOf s rest ∈ s :: rest := by
  induction rest generalizing s with
  | nil => exact List.mem_singleton.mpr rfl
  | cons b t ih =>
    have hunf : strongestOf s (b :: t) =
        strongestOf (if |s.magnitude| < |b.magnitude| then b else s) t := rfl
    rw [hunf]
    rcases List.mem_cons.mp (ih (if |s.magnitude| < |b.magnitude| then b else s))
      with he | ht
    · rw [he]
      by_cases hm : |s.magnitude| < |b.magnitude|
      · rw [if_pos hm]
        exact List.mem_cons_of_mem s (List.mem_cons_self b t)
      · rw [if_neg hm]
        exact List.mem_cons_self s (b :: t)
    · exact List.mem_cons_of_mem s (List.mem_cons_of_mem b ht)

theorem combineSignals_stable (total : Nat) (signals : List MethodSignal)
    (mag : ℚ)
    (hs : ∀ sig ∈ signals, sig.fired = true → sig.direction ≠ Direction.STABLE)
    (hd : (combineSignals total signals mag).direction = .STABLE) :
    (combineSignals total signals mag).shift_detected = false := by
  unfold combineSignals at hd ⊢
  cases hfil : signals.filter (fun s => s.fired) with
  | nil => rfl
  | cons f fs =>
    rw [hfil] at hd
    exfalso
    have hmem : strongestOf f fs ∈ signals.filter (fun s => s.fired) := by
      rw [hfil]; exact strongestOf_mem f fs
    have hfired := List.mem_filter.mp hmem
    have hns := hs _ hfired.1 (by simpa using hfired.2)
    simp only [combineAux] at hd
    split at hd
    · simp at hd
    · split at hd
      · simp at hd
      · exact hns (by simpa using hd)

/-- Claim C3: any verdict of the Demand Shift Detector whose direction is
STABLE has shift_detected = false — equivalently, no detected shift is ever
reported STABLE, because a STABLE direction arises only when no method
fires. -/
theorem stable_implies_not_detected (cfg : DemandShiftConfig) (xs : List ℚ)
    (hd : (detectShift cfg xs).direction = .STABLE) :
    (detectShift cfg xs).shift_detected = false := by
  unfold detectShift at hd ⊢
  refine combineSignals_stable _ _ _ ?_ hd
  intro sig hmem hf
  rcases List.mem_cons.mp hmem with rfl | hmem1
  · exact shape_fired_dir (cusumSignal_shape _ _) hf
  rcases List.mem_cons.mp hmem1 with rfl | hmem2
  · exact shape_fired_dir (maSignal_shape _ _ _ _) hf
  rcases List.mem_cons.mp hmem2 with rfl | hmem3
  · exact shape_fired_dir (zSignal_shape _ _) hf
  · cases hmem3

/-- Witness for C3: on the empty series the detector reports direction STABLE,
and shift_detected is false. -/
theorem stable_implies_not_detected_witness :
    (detectShift defaultShiftConfig []).direction = Direction.STABLE ∧
    (detectShift defaultShiftConfig []).shift_detected = false :=
  ⟨rfl, stable_implies_not_detected defaultShiftConfig [] rfl⟩

theorem mean_replicate (n : Nat) (c : ℚ) (hn : n ≠ 0) :
    mean (List.replicate n c) = c := by
  have hc : (n : ℚ) ≠ 0 := Nat.cast_ne_zero.mpr hn
  unfold mean
  rw [List.length_replicate, List.sum_replicate, if_neg hn, nsmul_eq_mul,
    mul_comm, mul_div_assoc, div_self hc, mul_one]

theorem variance_replicate (n : Nat) (c : ℚ) :
    variance (List.replicate n c) = 0 := by
  by_cases hn : n = 0
  · subst hn; rfl
  · unfold variance
    rw [List.length_replicate, if_neg hn, List.map_replicate,
      mean_replicate n c hn]
    simp

theorem cusumSignal_replicate (h : ℚ) (n : Nat) (c : ℚ) :
    cusumSignal h (List.replicate n c) = noSignal := by
  simp only [cusumSignal, variance_replicate, if_pos]

theorem zSignal_replicate (zthr : ℚ) (n : Nat) (c : ℚ) :
    zSignal zthr (List.replicate n c) = noSignal := by
  cases n with
  | zero => rfl
  | succ m =>
    simp [zSignal, List.getLast?_replicate, List.dropLast_replicate,
      variance_replicate]

theorem mean_lastN_replicate (k n : Nat) (c : ℚ) (hk : k ≠ 0) (hkn : k ≤ n) :
    mean (lastN k (List.replicate n c)) = c := by
  unfold lastN
  rw [List.length_replicate, List.drop_replicate, mean_replicate]
  omega

theorem maSignal_replicate (short long : Nat) (tol : ℚ) (n : Nat) (c : ℚ)
    (htol : 0 ≤ tol) (hs : 0 < short) (hsl : short ≤ long) :
    maSignal short long tol (List.replicate n c) = noSignal := by
  simp only [maSignal]
  by_cases hlen : (List.replicate n c).length < long
  · rw [if_pos hlen]
  · rw [if_neg hlen]
    rw [List.length_replicate, not_lt] at hlen
    rw [mean_lastN_replicate short n c (by omega) (le_trans hsl hlen),
      mean_lastN_replicate long n c (by omega) hlen]
    by_cases hc : c = 0
    · rw [if_pos hc]
    · rw [if_neg hc, sub_self, abs_zero,
        if_neg (not_lt.mpr (mul_nonneg htol (abs_nonneg c)))]

/-- Claim C9: a constant sales series (zero variance) never triggers a shift:
CUSUM and Z-score degenerate to no signal on zero variance, the MA crossover
sees equal means, so shift_detected is false rather than an error. -/
theorem constant_series_no_shift (cfg : DemandShiftConfig) (c : ℚ) (n : Nat)
    (htol : 0 ≤ cfg.maTolerance) (hs : 0 < cfg.maShort)
    (hsl : cfg.maShort ≤ cfg.maLong) :
    (detectShift cfg (List.replicate n c)).shift_detected = false := by
  unfold detectShift
  rw [cusumSignal_replicate, zSignal_replicate,
    maSignal_replicate cfg.maShort cfg.maLong cfg.maTolerance n c htol hs hsl]
  rfl

/-- Witness for C9: sixteen constant weeks of 5 units under the default
configuration (tolerance 0.1 ≥ 0, windows 0 < 4 ≤ 12) yield no shift. -/
theorem constant_series_no_shift_witness :
    0 ≤ defaultShiftConfig.maTolerance ∧ 0 < defaultShiftConfig.maShort ∧
    defaultShiftConfig.maShort ≤ defaultShiftConfig.maLong ∧
    (detectShift defaultShiftConfig (List.replicate 16 5)).shift_detected = false :=
  ⟨by norm_num [defaultShiftConfig], by decide, by decide,
    constant_series_no_shift defaultShiftConfig 5 16
      (by norm_num [defaultShiftConfig]) (by decide) (by decide)⟩

/-- Claim C4 (divergence witness): the two dashboard consumers of
confidence_score disagree about its scale — on a record with confidence 0.8
the SKU detail page renders 100 × 0.8 = 80 percent while the demand-shifts
page renders 0.8 percent, so they cannot both be reading the same [0,1]-scaled
value correctly. -/
theorem confidence_consumer_scale_mismatch :
    skuPageConfidencePercent (4/5) = 80 ∧
    shiftsPageConfidencePercent (4/5) = 4/5 ∧
    shiftsPageConfidencePercent (4/5) ≠ skuPageConfidencePercent (4/5) := by
  refine ⟨by norm_num [skuPageConfidencePercent], rfl, ?_⟩
  norm_num [skuPageConfidencePercent, shiftsPageConfidencePercent]

end Hackathon
